import Mathlib

/-!
Shallow embedding of the replicated message-log services
(`module-1/homework-3` master and secondary, plus the homework-2
secondary gRPC append handler) of the repository.

Conventions of the embedding:
* Python `int` identifiers (protobuf `int64`) are modelled as `Int`;
  the sequence counter of the master, which only ever counts up from 0,
  is modelled as `Nat`.
* The secondary's `dict[int, str]` is modelled as an association list
  `List (Int × String)` (insertion order, lookup by key); `bisect.insort`
  is modelled by `insort` below.
* Async/stateful methods become pure functions with the ambient inputs
  (health-table snapshots, per-task completion outcomes) passed
  explicitly; `HTTPException` raising becomes an `Except` result paired
  with the post-call state.
-/

namespace DistLog

/-- `NodeStatus` from `master_service/app/enums.py`. -/
inductive NodeStatus where
  | healthy
  | suspected
  | unhealthy
deriving DecidableEq, Repr

/-- Number of entries of the health table whose status is `Healthy`
(the generator summed in `GrpcReplicator.get_quorum_status`). -/
def countHealthy (health : List NodeStatus) : Nat :=
  health.countP (fun s => s = NodeStatus.healthy)

/-- `GrpcReplicator.get_quorum_status`: with `total_nodes = len(secondaries) + 1`
and `quorum_needed = total_nodes // 2 + 1`, returns
`1 + #healthy secondaries >= quorum_needed`.  The health table has one
entry per secondary host, so the list `health` stands for both. -/
def get_quorum_status (health : List NodeStatus) : Bool :=
  let total_nodes := health.length + 1
  let quorum_needed := total_nodes / 2 + 1
  let healthy_count := 1 + countHealthy health
  decide (healthy_count ≥ quorum_needed)

/-- `GrpcReplicator._calculate_target_acks`: `target = write_concern - 1`;
non-positive targets collapse to 0, targets exceeding the number of
secondaries are capped at that number. -/
def calculate_target_acks (total_secondaries : Nat) (write_concern : Int) : Nat :=
  let target := write_concern - 1
  if target ≤ 0 then 0
  else if target > (total_secondaries : Int) then total_secondaries
  else target.toNat

/-- The `for future in asyncio.as_completed(tasks)` loop body of
`GrpcReplicator._wait_for_acks`: `outcomes` are the task results in
completion order, `acks` the successes counted so far. -/
def wait_for_acks_loop (outcomes : List Bool) (acks target : Nat) : Bool :=
  match outcomes with
  | [] => false
  | o :: rest =>
      let acks' := if o then acks + 1 else acks
      if acks' ≥ target then true else wait_for_acks_loop rest acks' target

/-- `GrpcReplicator._wait_for_acks`: immediately true on a zero target,
otherwise counts successful task completions until the target is reached;
false once every task has resolved short of the target. -/
def wait_for_acks (outcomes : List Bool) (target_acks : Nat) : Bool :=
  if target_acks = 0 then true
  else wait_for_acks_loop outcomes 0 target_acks

/-- `GrpcReplicator.replicate_message`: re-checks the quorum, computes the
target of remote ACKs and waits on the per-host replication tasks, whose
results in completion order are `outcomes`. -/
def replicate_message (health : List NodeStatus) (write_concern : Int)
    (outcomes : List Bool) : Bool :=
  if get_quorum_status health then
    wait_for_acks outcomes (calculate_target_acks health.length write_concern)
  else false

/-- `GrpcReplicator._check_single_node`, as the induced step function on a
host's status: `pingOk` tells whether the `Heartbeat` RPC succeeded within
its timeout. -/
def check_single_node (current : NodeStatus) (pingOk : Bool) : NodeStatus :=
  if pingOk then NodeStatus.healthy
  else
    match current with
    | NodeStatus.healthy => NodeStatus.suspected
    | NodeStatus.suspected => NodeStatus.unhealthy
    | NodeStatus.unhealthy => NodeStatus.unhealthy

/-- The mutable state of `MessageService` (`master_service/app/services.py`):
the write-ahead log `_messages` and `_id_counter`. -/
structure MessageService where
  messages : List String
  id_counter : Nat
deriving DecidableEq, Repr

/-- A fresh `MessageService()`: empty log, counter 0. -/
def MessageService.fresh : MessageService := ⟨[], 0⟩

/-- The two `HTTPException`s `MessageService.append_message` can raise. -/
inductive ApiError where
  | quorumLost
  | writeConcernUnmet
deriving DecidableEq, Repr

/-- The HTTP status code each error is surfaced with. -/
def ApiError.status_code : ApiError → Nat
  | ApiError.quorumLost => 503
  | ApiError.writeConcernUnmet => 500

/-- `MessageService.append_message`.  `health1` is the health table at the
initial `get_quorum_status` check, `health2` the table when
`replicate_message` re-reads it (the heartbeat loop may have run in
between), `outcomes` the replication-task results.  Returns the response
(assigned id or raised error) together with the service state after the
call. -/
def append_message (st : MessageService) (content : String) (write_concern : Int)
    (health1 health2 : List NodeStatus) (outcomes : List Bool) :
    Except ApiError Nat × MessageService :=
  if get_quorum_status health1 = false then
    (Except.error ApiError.quorumLost, st)
  else
    let msg_id := st.id_counter + 1
    let st' : MessageService := ⟨st.messages ++ [content], msg_id⟩
    if replicate_message health2 write_concern outcomes then
      (Except.ok msg_id, st')
    else
      (Except.error ApiError.writeConcernUnmet, st')

/-- `MessageService.get_messages`: a copy of the master's log. -/
def get_messages (st : MessageService) : List String := st.messages

/-- One client call to `POST /api/messages` as seen by `append_message`:
the payload, the requested write concern, and the ambient inputs of that
call. -/
structure AppendCall where
  content : String
  write_concern : Int
  health1 : List NodeStatus
  health2 : List NodeStatus
  outcomes : List Bool

/-- A sequence of `append_message` calls executed one after the other
(each call holds the allocator mutex for its id assignment, so the calls
serialize); returns the list of responses and the final state. -/
def run_appends (st : MessageService) : List AppendCall → List (Except ApiError Nat) × MessageService
  | [] => ([], st)
  | c :: rest =>
      let r := append_message st c.content c.write_concern c.health1 c.health2 c.outcomes
      let rec_result := run_appends r.2 rest
      (r.1 :: rec_result.1, rec_result.2)

/-- Lookup in the secondary's `_messages` dict (`self._messages[msg_id]`
resolves by key). -/
def lookupMsg (msgs : List (Int × String)) (k : Int) : Option String :=
  (msgs.find? (fun p => p.1 = k)).map (fun p => p.2)

/-- `msg_id in self._messages`: key membership in the dict. -/
def hasKey (msgs : List (Int × String)) (k : Int) : Bool :=
  msgs.any (fun p => p.1 = k)

/-- `bisect.insort(self._sorted_ids, msg_id)`: insert keeping ascending
order (after any equal elements, as `insort_right` does). -/
def insort (xs : List Int) (x : Int) : List Int :=
  match xs with
  | [] => [x]
  | y :: ys => if x < y then x :: y :: ys else y :: insort ys x

/-- The mutable state of `MessageStorage`
(`secondary_service/app/storage.py`): the sparse id→payload dict and the
ascending id list. -/
structure MessageStorage where
  messages : List (Int × String)
  sorted_ids : List Int
deriving DecidableEq, Repr

/-- A fresh `MessageStorage()`: both containers empty. -/
def MessageStorage.empty : MessageStorage := ⟨[], []⟩

/-- `MessageStorage.add_message`: duplicate ids are rejected without any
mutation; a new id is stored in the dict and insorted into
`_sorted_ids`.  Returns `(is_new, state after the call)`. -/
def add_message (st : MessageStorage) (msg_id : Int) (msg_content : String) :
    Bool × MessageStorage :=
  if hasKey st.messages msg_id then
    (false, st)
  else
    (true, ⟨st.messages ++ [(msg_id, msg_content)], insort st.sorted_ids msg_id⟩)

/-- The `for msg_id in self._sorted_ids` loop of `MessageStorage.get_all`
(homework-3): collect payloads while the current id equals `expected_id`,
stop at the first mismatch. -/
def get_all_loop (msgs : List (Int × String)) : List Int → Int → List String
  | [], _ => []
  | msg_id :: rest, expected_id =>
      if msg_id = expected_id then
        (lookupMsg msgs msg_id).getD "" :: get_all_loop msgs rest (expected_id + 1)
      else []

/-- `MessageStorage.get_all` (homework-3): empty `_sorted_ids` short-circuits
to `[]`; otherwise the contiguous run starting at expected id 1 is
materialized. -/
def get_all (st : MessageStorage) : List String :=
  if st.sorted_ids.isEmpty then []
  else get_all_loop st.messages st.sorted_ids 1

/-- `ReplicationService.AppendMessage`
(homework-2 `secondary_service/app/grpc_server.py`): calls
`storage.add_message` and answers `Ack(success=True)` whether the message
was new or a duplicate.  Returns `(ack.success, storage after the call)`. -/
def appendMessageRpc (st : MessageStorage) (msg_id : Int) (content : String) :
    Bool × MessageStorage :=
  let r := add_message st msg_id content
  (true, r.2)

/-- The state transformer of one `AppendMessage(id, p)` delivery. -/
def deliver (msg_id : Int) (content : String) (st : MessageStorage) : MessageStorage :=
  (appendMessageRpc st msg_id content).2

/-- Invariant I4 of the secondary storage, as an executable check:
`_sorted_ids` is strictly ascending and its elements are exactly the keys
of `_messages`. -/
def invCheck (st : MessageStorage) : Bool :=
  decide (st.sorted_ids.Pairwise (fun a b => a < b))
    && st.sorted_ids.all (fun k => hasKey st.messages k)
    && st.messages.all (fun p => decide (p.1 ∈ st.sorted_ids))

/-- `MessageCreate` from `master_service/app/schemas.py`: the request body
of `POST /api/messages`; `write_concern` is a bare `int` field with
default 1 and no bound declared. -/
structure MessageCreate where
  message : String
  write_concern : Int
deriving DecidableEq, Repr

/-- Pydantic validation of the `MessageCreate` body restricted to integer
inputs: an omitted `write_concern` takes the default 1; any provided
integer is accepted unchanged, since the field declares no constraint. -/
def parse_message_create (message : String) (write_concern : Option Int) :
    Except String MessageCreate :=
  Except.ok { message := message, write_concern := write_concern.getD 1 }

/-! ## Helper lemmas -/

theorem quorum_status_false_iff (health : List NodeStatus) :
    get_quorum_status health = false
      ↔ 1 + countHealthy health < (health.length + 1) / 2 + 1 := by
  simp [get_quorum_status, Nat.lt_iff_add_one_le, Nat.not_le]

theorem calculate_target_acks_of_nonpos (n : Nat) (w : Int) (hw : w ≤ 1) :
    calculate_target_acks n w = 0 := by
  unfold calculate_target_acks
  have : w - 1 ≤ 0 := by omega
  simp [this]

theorem calculate_target_acks_of_gt (n : Nat) (w : Int) (hw : 1 < w) :
    calculate_target_acks n w = min (w - 1).toNat n := by
  unfold calculate_target_acks
  have h1 : ¬ (w - 1 ≤ 0) := by omega
  simp only [h1, if_false]
  by_cases h2 : w - 1 > (n : Int)
  · simp only [h2, if_true]
    omega
  · simp only [h2, if_false]
    omega

theorem wait_for_acks_loop_iff (outcomes : List Bool) (acks target : Nat)
    (h : acks < target) :
    wait_for_acks_loop outcomes acks target = true
      ↔ target ≤ acks + outcomes.count true := by
  induction outcomes generalizing acks with
  | nil =>
    simp [wait_for_acks_loop]
    omega
  | cons o rest ih =>
    cases o with
    | true =>
      have hstep : wait_for_acks_loop (true :: rest) acks target
          = if acks + 1 ≥ target then true else wait_for_acks_loop rest (acks + 1) target := by
        simp [wait_for_acks_loop]
      rw [hstep, List.count_cons_self]
      by_cases hge : acks + 1 ≥ target
      · rw [if_pos hge]
        simp only [true_iff]
        omega
      · rw [if_neg hge, ih (acks + 1) (by omega)]
        omega
    | false =>
      have hstep : wait_for_acks_loop (false :: rest) acks target
          = wait_for_acks_loop rest acks target := by
        have hne : ¬ (acks ≥ target) := by omega
        simp [wait_for_acks_loop, hne]
      rw [hstep, List.count_cons_of_ne (by simp), ih acks h]

theorem wait_for_acks_pos_iff (outcomes : List Bool) (target : Nat)
    (h : 0 < target) :
    wait_for_acks outcomes target = true ↔ target ≤ outcomes.count true := by
  unfold wait_for_acks
  have hne : ¬ (target = 0) := by omega
  rw [if_neg hne]
  have := wait_for_acks_loop_iff outcomes 0 target h
  simpa using this

theorem replicate_eq_wait (health : List NodeStatus) (w : Int) (outcomes : List Bool)
    (hq : get_quorum_status health = true) :
    replicate_message health w outcomes
      = wait_for_acks outcomes (calculate_target_acks health.length w) := by
  simp [replicate_message, hq]

theorem append_message_quorum_false (st : MessageService) (content : String) (w : Int)
    (health1 health2 : List NodeStatus) (outcomes : List Bool)
    (hq : get_quorum_status health1 = false) :
    append_message st content w health1 health2 outcomes
      = (Except.error ApiError.quorumLost, st) := by
  simp [append_message, hq]

theorem append_message_repl_false (st : MessageService) (content : String) (w : Int)
    (health1 health2 : List NodeStatus) (outcomes : List Bool)
    (hq : get_quorum_status health1 = true)
    (hr : replicate_message health2 w outcomes = false) :
    append_message st content w health1 health2 outcomes
      = (Except.error ApiError.writeConcernUnmet,
          ⟨st.messages ++ [content], st.id_counter + 1⟩) := by
  simp [append_message, hq, hr]

theorem append_message_repl_true (st : MessageService) (content : String) (w : Int)
    (health1 health2 : List NodeStatus) (outcomes : List Bool)
    (hq : get_quorum_status health1 = true)
    (hr : replicate_message health2 w outcomes = true) :
    append_message st content w health1 health2 outcomes
      = (Except.ok (st.id_counter + 1),
          ⟨st.messages ++ [content], st.id_counter + 1⟩) := by
  simp [append_message, hq, hr]

theorem mem_insort (xs : List Int) (x y : Int) :
    y ∈ insort xs x ↔ y = x ∨ y ∈ xs := by
  induction xs with
  | nil => simp [insort]
  | cons z zs ih =>
    unfold insort
    by_cases hlt : x < z
    · simp [hlt]
    · simp [hlt, ih]
      tauto

theorem pairwise_insort (xs : List Int) (x : Int)
    (hs : xs.Pairwise (fun a b => a < b)) (hx : x ∉ xs) :
    (insort xs x).Pairwise (fun a b => a < b) := by
  induction xs with
  | nil => simp [insort]
  | cons z zs ih =>
    rw [List.pairwise_cons] at hs
    obtain ⟨hz, hzs⟩ := hs
    have hxz : x ≠ z := by
      intro he
      exact hx (he ▸ List.mem_cons_self z zs)
    have hxzs : x ∉ zs := fun hm => hx (List.mem_cons_of_mem z hm)
    unfold insort
    by_cases hlt : x < z
    · rw [if_pos hlt, List.pairwise_cons]
      refine ⟨?_, List.pairwise_cons.mpr ⟨hz, hzs⟩⟩
      intro b hb
      rcases List.mem_cons.mp hb with hbz | hbzs
      · exact hbz ▸ hlt
      · exact lt_trans hlt (hz b hbzs)
    · rw [if_neg hlt, List.pairwise_cons]
      refine ⟨?_, ih hzs hxzs⟩
      intro b hb
      rcases (mem_insort zs x b).mp hb with hbx | hbzs
      · exact hbx ▸ lt_of_le_of_ne (not_lt.mp hlt) (Ne.symm hxz)
      · exact hz b hbzs

theorem hasKey_append_single (msgs : List (Int × String)) (q : Int × String) (k : Int) :
    hasKey (msgs ++ [q]) k = (hasKey msgs k || decide (q.1 = k)) := by
  simp [hasKey]

theorem hasKey_false_forall (msgs : List (Int × String)) (k : Int)
    (h : hasKey msgs k = false) : ∀ x ∈ msgs, ¬ (x.1 = k) := by
  intro x hx he
  have ht : hasKey msgs k = true := by
    unfold hasKey
    rw [List.any_eq_true]
    exact ⟨x, hx, by simp [he]⟩
  rw [ht] at h
  simp at h

theorem lookupMsg_append_new (msgs : List (Int × String)) (k : Int) (p : String)
    (h : hasKey msgs k = false) :
    lookupMsg (msgs ++ [(k, p)]) k = some p := by
  have hnone : msgs.find? (fun q => decide (q.1 = k)) = none := by
    rw [List.find?_eq_none]
    intro x hx
    simpa using hasKey_false_forall msgs k h x hx
  unfold lookupMsg
  rw [List.find?_append, hnone]
  simp [List.find?]

theorem countP_append_key (msgs : List (Int × String)) (k : Int) (p : String)
    (h : hasKey msgs k = false) :
    (msgs ++ [(k, p)]).countP (fun q => q.1 = k) = 1 := by
  rw [List.countP_append]
  have h0 : msgs.countP (fun q => decide (q.1 = k)) = 0 := by
    rw [List.countP_eq_zero]
    intro x hx
    simpa using hasKey_false_forall msgs k h x hx
  rw [h0]
  simp [List.countP, List.countP.go]

theorem invCheck_iff (st : MessageStorage) :
    invCheck st = true ↔
      st.sorted_ids.Pairwise (fun a b => a < b)
      ∧ (∀ k ∈ st.sorted_ids, hasKey st.messages k = true)
      ∧ (∀ p ∈ st.messages, p.1 ∈ st.sorted_ids) := by
  simp [invCheck, List.all_eq_true, and_assoc]

/-! ## Claims about the master's heartbeat, quorum gate and write concern -/

/-- C7: one heartbeat check is a step function on the host's status: a
successful ping yields Healthy from every prior status; a failed ping
advances exactly one step — Healthy becomes Suspected, Suspected becomes
Unhealthy, Unhealthy stays Unhealthy — and (by the closed `NodeStatus`
type) no other status values are produced. -/
theorem c7_heartbeat_step (s : NodeStatus) :
    check_single_node s true = NodeStatus.healthy ∧
    check_single_node NodeStatus.healthy false = NodeStatus.suspected ∧
    check_single_node NodeStatus.suspected false = NodeStatus.unhealthy ∧
    check_single_node NodeStatus.unhealthy false = NodeStatus.unhealthy := by
  refine ⟨?_, rfl, rfl, rfl⟩
  cases s <;> rfl

/-- C4: `append_message` raises `QuorumLost` (surfaced as HTTP 503) iff,
at the initial check, 1 + the number of Healthy secondaries is strictly
below ⌊(|secondary_hosts| + 1)/2⌋ + 1; and when it raises, the service
state (log and id counter) is unchanged. -/
theorem c4_quorum_gate (st : MessageService) (content : String) (w : Int)
    (health1 health2 : List NodeStatus) (outcomes : List Bool) :
    ((append_message st content w health1 health2 outcomes).1
        = Except.error ApiError.quorumLost
      ↔ 1 + countHealthy health1 < (health1.length + 1) / 2 + 1) ∧
    ((append_message st content w health1 health2 outcomes).1
        = Except.error ApiError.quorumLost
      → (append_message st content w health1 health2 outcomes).2 = st) ∧
    ApiError.quorumLost.status_code = 503 := by
  cases hq : get_quorum_status health1 with
  | false =>
    rw [append_message_quorum_false st content w health1 health2 outcomes hq]
    exact ⟨by simp [(quorum_status_false_iff health1).mp hq], fun _ => rfl, rfl⟩
  | true =>
    have hnot : ¬ 1 + countHealthy health1 < (health1.length + 1) / 2 + 1 := by
      intro hc
      have hfq := (quorum_status_false_iff health1).mpr hc
      rw [hfq] at hq
      simp at hq
    cases hr : replicate_message health2 w outcomes with
    | false =>
      rw [append_message_repl_false st content w health1 health2 outcomes hq hr]
      refine ⟨?_, ?_, rfl⟩
      · simp only [hnot, iff_false]
        intro hcon
        exact absurd (Except.error.inj hcon) (by decide)
      · intro hcon
        exact absurd (Except.error.inj hcon) (by decide)
    | true =>
      rw [append_message_repl_true st content w health1 health2 outcomes hq hr]
      refine ⟨?_, ?_, rfl⟩
      · simp [hnot]
      · intro hcon
        simp at hcon

/-- Witness for C4: with two Unhealthy secondaries the quorum (2 of 3)
fails, the call raises QuorumLost and leaves the fresh state unchanged. -/
theorem c4_quorum_gate_witness :
    (append_message MessageService.fresh "m" 2
        [NodeStatus.unhealthy, NodeStatus.unhealthy] [] []).1
      = Except.error ApiError.quorumLost ∧
    (append_message MessageService.fresh "m" 2
        [NodeStatus.unhealthy, NodeStatus.unhealthy] [] []).2
      = MessageService.fresh := by
  have h := c4_quorum_gate MessageService.fresh "m" 2
    [NodeStatus.unhealthy, NodeStatus.unhealthy] [] []
  have hres := h.1.mpr (by decide)
  exact ⟨hres, h.2.1 hres⟩

/-- C5: the remote-ACK target is 0 for write_concern ≤ 1 and
min(w − 1, |secondaries|) otherwise; a zero target makes the ACK wait
return true regardless of task outcomes; a positive target makes it
return true exactly when the successful completions reach the target
(false once all tasks resolved short of it); and under a passing quorum
`replicate_message` is exactly that wait. -/
theorem c5_write_concern_target (n : Nat) (w : Int) (outcomes : List Bool)
    (health : List NodeStatus) :
    (w ≤ 1 → calculate_target_acks n w = 0) ∧
    (1 < w → calculate_target_acks n w = min (w - 1).toNat n) ∧
    wait_for_acks outcomes 0 = true ∧
    (∀ t : Nat, 0 < t →
      (wait_for_acks outcomes t = true ↔ t ≤ outcomes.count true)) ∧
    (get_quorum_status health = true →
      replicate_message health w outcomes
        = wait_for_acks outcomes (calculate_target_acks health.length w)) :=
  ⟨calculate_target_acks_of_nonpos n w, calculate_target_acks_of_gt n w, rfl,
    fun t ht => wait_for_acks_pos_iff outcomes t ht,
    replicate_eq_wait health w outcomes⟩

/-- Witness for C5 at concrete inputs: write_concern 0 (target 0),
write_concern 3 with 2 secondaries (target 2), and a 2-of-3 successful
outcome list. -/
theorem c5_write_concern_target_witness :
    calculate_target_acks 5 0 = 0 ∧
    calculate_target_acks 2 3 = min (Int.toNat (3 - 1)) 2 ∧
    wait_for_acks [false, false] 0 = true ∧
    (wait_for_acks [true, false, true] 2 = true
      ↔ 2 ≤ List.count true [true, false, true]) ∧
    replicate_message [NodeStatus.healthy, NodeStatus.healthy] 3 [true, false, true]
      = wait_for_acks [true, false, true] (calculate_target_acks 2 3) := by
  have ha := c5_write_concern_target 5 0 [false, false] []
  have hb := c5_write_concern_target 2 3 [true, false, true]
    [NodeStatus.healthy, NodeStatus.healthy]
  exact ⟨ha.1 (by decide), hb.2.1 (by decide), ha.2.2.1,
    hb.2.2.2.1 2 (by decide), hb.2.2.2.2 (by decide)⟩

/-- C6: when `replicate_message` returns false, `append_message` fails
with `WriteConcernUnmet` (HTTP 500), but the already-allocated id stays
allocated (counter advanced) and the payload stays in the log, so a
subsequent `get_messages` still includes it. -/
theorem c6_write_concern_unmet_keeps (st : MessageService) (content : String) (w : Int)
    (health1 health2 : List NodeStatus) (outcomes : List Bool)
    (hq : get_quorum_status health1 = true)
    (hr : replicate_message health2 w outcomes = false) :
    append_message st content w health1 health2 outcomes
      = (Except.error ApiError.writeConcernUnmet,
          ⟨st.messages ++ [content], st.id_counter + 1⟩) ∧
    ApiError.writeConcernUnmet.status_code = 500 ∧
    content ∈ get_messages (append_message st content w health1 health2 outcomes).2 := by
  have h := append_message_repl_false st content w health1 health2 outcomes hq hr
  refine ⟨h, rfl, ?_⟩
  rw [h]
  simp [get_messages]

/-- Witness for C6: one healthy secondary, write_concern 2, the single
replication task resolves with failure; the message "a" stays in the log. -/
theorem c6_write_concern_unmet_keeps_witness :
    append_message MessageService.fresh "a" 2 [NodeStatus.healthy] [NodeStatus.healthy]
        [false]
      = (Except.error ApiError.writeConcernUnmet, ⟨["a"], 1⟩) ∧
    "a" ∈ get_messages (append_message MessageService.fresh "a" 2 [NodeStatus.healthy]
        [NodeStatus.healthy] [false]).2 := by
  have h := c6_write_concern_unmet_keeps MessageService.fresh "a" 2 [NodeStatus.healthy]
    [NodeStatus.healthy] [false] (by decide) (by decide)
  exact ⟨h.1, h.2.2⟩

/-- C9: a quorum loss first detected inside `replicate_message` (the
initial check in `append_message` passed on `health1`, the re-check fails
on `health2`) makes `replicate_message` return false for every
write_concern, and the client sees HTTP 500 `WriteConcernUnmet` — not
HTTP 503 `QuorumLost` — with the id allocated and the message kept. -/
theorem c9_quorum_lost_mid_replication (st : MessageService) (content : String) (w : Int)
    (health1 health2 : List NodeStatus) (outcomes : List Bool)
    (hq1 : get_quorum_status health1 = true)
    (hq2 : get_quorum_status health2 = false) :
    replicate_message health2 w outcomes = false ∧
    (append_message st content w health1 health2 outcomes).1
      = Except.error ApiError.writeConcernUnmet ∧
    (append_message st content w health1 health2 outcomes).1
      ≠ Except.error ApiError.quorumLost ∧
    (append_message st content w health1 health2 outcomes).2
      = ⟨st.messages ++ [content], st.id_counter + 1⟩ ∧
    ApiError.writeConcernUnmet.status_code = 500 := by
  have hr : replicate_message health2 w outcomes = false := by
    simp [replicate_message, hq2]
  have h := append_message_repl_false st content w health1 health2 outcomes hq1 hr
  rw [h]
  exact ⟨hr, rfl, fun hcon => absurd (Except.error.inj hcon) (by decide), rfl, rfl⟩

/-- Witness for C9: quorum 3 of 5 holds at the first check (2 healthy
secondaries) and fails at the second (0 healthy secondaries). -/
theorem c9_quorum_lost_mid_replication_witness :
    replicate_message
        [NodeStatus.unhealthy, NodeStatus.unhealthy, NodeStatus.unhealthy,
          NodeStatus.unhealthy] 2 [true, true, true, true] = false ∧
    (append_message MessageService.fresh "a" 2
        [NodeStatus.healthy, NodeStatus.healthy, NodeStatus.unhealthy,
          NodeStatus.unhealthy]
        [NodeStatus.unhealthy, NodeStatus.unhealthy, NodeStatus.unhealthy,
          NodeStatus.unhealthy]
        [true, true, true, true]).1
      = Except.error ApiError.writeConcernUnmet := by
  have h := c9_quorum_lost_mid_replication MessageService.fresh "a" 2
    [NodeStatus.healthy, NodeStatus.healthy, NodeStatus.unhealthy, NodeStatus.unhealthy]
    [NodeStatus.unhealthy, NodeStatus.unhealthy, NodeStatus.unhealthy,
      NodeStatus.unhealthy]
    [true, true, true, true] (by decide) (by decide)
  exact ⟨h.1, h.2.1⟩

/-- C10: the request schema accepts any integer write_concern (default 1
when omitted, no lower bound), and every write_concern ≤ 1 yields a
zero ACK target, so such a write succeeds without any remote
acknowledgement (here: even when every replication task fails). -/
theorem c10_write_concern_unvalidated (msg : String) (v : Int) (n : Nat)
    (st : MessageService) (content : String) (w : Int)
    (health1 health2 : List NodeStatus) (outcomes : List Bool) :
    parse_message_create msg none = Except.ok ⟨msg, 1⟩ ∧
    parse_message_create msg (some v) = Except.ok ⟨msg, v⟩ ∧
    (w ≤ 1 → calculate_target_acks n w = 0) ∧
    (w ≤ 1 → get_quorum_status health1 = true → get_quorum_status health2 = true →
      (append_message st content w health1 health2 outcomes).1
        = Except.ok (st.id_counter + 1)) := by
  refine ⟨rfl, rfl, calculate_target_acks_of_nonpos n w, ?_⟩
  intro hw hq1 hq2
  have hr : replicate_message health2 w outcomes = true := by
    rw [replicate_eq_wait health2 w outcomes hq2,
      calculate_target_acks_of_nonpos health2.length w hw]
    rfl
  rw [append_message_repl_true st content w health1 health2 outcomes hq1 hr]

/-- A run whose every call succeeded: each call returned the next id in
sequence and appended its payload to the log. -/
theorem run_appends_ok_general (calls : List AppendCall) (st : MessageService)
    (h : ∀ r ∈ (run_appends st calls).1, ∃ i, r = Except.ok i) :
    (run_appends st calls).1
        = (List.range calls.length).map (fun i => Except.ok (st.id_counter + i + 1)) ∧
    (run_appends st calls).2.messages = st.messages ++ calls.map (fun c => c.content) ∧
    (run_appends st calls).2.id_counter = st.id_counter + calls.length := by
  induction calls generalizing st with
  | nil => simp [run_appends]
  | cons c rest ih =>
    have hhead : (append_message st c.content c.write_concern c.health1 c.health2
        c.outcomes).1 ∈ (run_appends st (c :: rest)).1 := by
      simp [run_appends]
    cases hq : get_quorum_status c.health1 with
    | false =>
      exfalso
      rcases h _ hhead with ⟨i, hi⟩
      rw [append_message_quorum_false st c.content c.write_concern c.health1 c.health2
        c.outcomes hq] at hi
      simp at hi
    | true =>
      cases hr : replicate_message c.health2 c.write_concern c.outcomes with
      | false =>
        exfalso
        rcases h _ hhead with ⟨i, hi⟩
        rw [append_message_repl_false st c.content c.write_concern c.health1 c.health2
          c.outcomes hq hr] at hi
        simp at hi
      | true =>
        have happ := append_message_repl_true st c.content c.write_concern c.health1
          c.health2 c.outcomes hq hr
        have hrun : run_appends st (c :: rest)
            = (Except.ok (st.id_counter + 1)
                :: (run_appends ⟨st.messages ++ [c.content], st.id_counter + 1⟩ rest).1,
               (run_appends ⟨st.messages ++ [c.content], st.id_counter + 1⟩ rest).2) := by
          simp [run_appends, happ]
        have htail : ∀ r ∈ (run_appends ⟨st.messages ++ [c.content],
            st.id_counter + 1⟩ rest).1, ∃ i, r = Except.ok i := by
          intro r hrm
          apply h
          rw [hrun]
          exact List.mem_cons_of_mem _ hrm
        obtain ⟨h1, h2, h3⟩ := ih ⟨st.messages ++ [c.content], st.id_counter + 1⟩ htail
        rw [hrun]
        refine ⟨?_, ?_, ?_⟩
        · show Except.ok (st.id_counter + 1) :: _ = _
          rw [h1, List.length_cons, List.range_succ_eq_map, List.map_cons, List.map_map]
          refine congrArg₂ _ (by simp) ?_
          refine List.map_congr_left ?_
          intro a _
          show Except.ok (st.id_counter + 1 + a + 1) = Except.ok (st.id_counter + (a + 1) + 1)
          congr 1
          omega
        · show (run_appends _ rest).2.messages = _
          rw [h2]
          simp
        · show (run_appends _ rest).2.id_counter = _
          rw [h3]
          show st.id_counter + 1 + rest.length = st.id_counter + (rest.length + 1)
          omega

/-- C1: a sequence of n all-successful `append_message` calls on a fresh
primary returns exactly the ids 1, 2, …, n in call order (0 never
assigned, no id reused), and `get_messages` then returns exactly the n
payloads in id order, log index i holding the payload of id i + 1. -/
theorem c1_ids_dense_and_log (calls : List AppendCall)
    (h : ∀ r ∈ (run_appends MessageService.fresh calls).1, ∃ i, r = Except.ok i) :
    (run_appends MessageService.fresh calls).1
        = (List.range calls.length).map (fun i => Except.ok (i + 1)) ∧
    (run_appends MessageService.fresh calls).1.Nodup ∧
    (∀ i : Nat, Except.ok i ∈ (run_appends MessageService.fresh calls).1 →
        1 ≤ i ∧ i ≤ calls.length) ∧
    get_messages (run_appends MessageService.fresh calls).2
        = calls.map (fun c => c.content) ∧
    (∀ i : Nat, i < calls.length →
      (get_messages (run_appends MessageService.fresh calls).2)[i]?
        = (calls[i]?).map (fun c => c.content)) := by
  obtain ⟨h1, h2, h3⟩ := run_appends_ok_general calls MessageService.fresh h
  have h1' : (run_appends MessageService.fresh calls).1
      = (List.range calls.length).map (fun i => Except.ok (i + 1)) := by
    rw [h1]
    refine List.map_congr_left ?_
    intro a _
    show Except.ok (MessageService.fresh.id_counter + a + 1) = Except.ok (a + 1)
    congr 1
    show 0 + a + 1 = a + 1
    omega
  have h2' : get_messages (run_appends MessageService.fresh calls).2
      = calls.map (fun c => c.content) := by
    show (run_appends MessageService.fresh calls).2.messages = _
    rw [h2]
    rfl
  refine ⟨h1', ?_, ?_, h2', ?_⟩
  · rw [h1']
    refine List.Nodup.map ?_ (List.nodup_range calls.length)
    intro a b hab
    simpa using hab
  · intro i hi
    rw [h1'] at hi
    simp only [List.mem_map, List.mem_range] at hi
    rcases hi with ⟨j, hj, hji⟩
    have : j + 1 = i := by simpa using hji
    omega
  · intro i _
    rw [h2', List.getElem?_map]

/-- Witness for C1: two successful calls on a fresh primary return ids
1 and 2 and leave the log ["a", "b"]. -/
theorem c1_ids_dense_and_log_witness :
    (run_appends MessageService.fresh
        [⟨"a", 1, [NodeStatus.healthy], [NodeStatus.healthy], [true]⟩,
         ⟨"b", 1, [NodeStatus.healthy], [NodeStatus.healthy], [true]⟩]).1
      = [Except.ok 1, Except.ok 2] ∧
    get_messages (run_appends MessageService.fresh
        [⟨"a", 1, [NodeStatus.healthy], [NodeStatus.healthy], [true]⟩,
         ⟨"b", 1, [NodeStatus.healthy], [NodeStatus.healthy], [true]⟩]).2
      = ["a", "b"] := by
  have h := c1_ids_dense_and_log
    [⟨"a", 1, [NodeStatus.healthy], [NodeStatus.healthy], [true]⟩,
     ⟨"b", 1, [NodeStatus.healthy], [NodeStatus.healthy], [true]⟩]
    (by
      intro r hr
      have he : (run_appends MessageService.fresh
          [⟨"a", 1, [NodeStatus.healthy], [NodeStatus.healthy], [true]⟩,
           ⟨"b", 1, [NodeStatus.healthy], [NodeStatus.healthy], [true]⟩]).1
          = [Except.ok 1, Except.ok 2] := rfl
      rw [he] at hr
      simp only [List.mem_cons, List.mem_singleton, List.not_mem_nil, or_false] at hr
      rcases hr with h1 | h2
      · exact ⟨1, h1⟩
      · exact ⟨2, h2⟩)
  exact ⟨h.1.trans rfl, h.2.2.2.1.trans rfl⟩

/-- Witness for C10: write_concern −5 is accepted by the schema, and a
write with write_concern 0 succeeds though its only replication task
failed. -/
theorem c10_write_concern_unvalidated_witness :
    parse_message_create "x" none = Except.ok ⟨"x", 1⟩ ∧
    parse_message_create "x" (some (-5)) = Except.ok ⟨"x", -5⟩ ∧
    calculate_target_acks 3 0 = 0 ∧
    (append_message MessageService.fresh "c" 0 [NodeStatus.healthy] [NodeStatus.healthy]
        [false]).1 = Except.ok 1 := by
  have h := c10_write_concern_unvalidated "x" (-5) 3 MessageService.fresh "c" 0
    [NodeStatus.healthy] [NodeStatus.healthy] [false]
  exact ⟨h.1, h.2.1, h.2.2.1 (by decide), h.2.2.2 (by decide) (by decide) (by decide)⟩

/-! ## Claims about the secondary storage -/

/-- C8: every storage operation preserves invariant I4 — `sorted_ids`
strictly ascending with element set equal to the key set of `messages` —
and the invariant holds in the initial empty state.  (`get_all` does not
mutate the state at all in the source, so `add_message` is the only state
transformer to check.) -/
theorem c8_storage_invariant (st : MessageStorage) (msg_id : Int) (content : String)
    (h : invCheck st = true) :
    invCheck MessageStorage.empty = true ∧
    invCheck (add_message st msg_id content).2 = true := by
  refine ⟨by rfl, ?_⟩
  rw [invCheck_iff] at h
  obtain ⟨hpw, hkeys, hmem⟩ := h
  by_cases hk : hasKey st.messages msg_id = true
  · unfold add_message
    rw [if_pos hk]
    exact (invCheck_iff st).mpr ⟨hpw, hkeys, hmem⟩
  · have hk' : hasKey st.messages msg_id = false := by simpa using hk
    have hnotmem : msg_id ∉ st.sorted_ids := by
      intro hm
      have ht := hkeys msg_id hm
      rw [ht] at hk'
      simp at hk'
    unfold add_message
    rw [if_neg (by simp [hk'])]
    rw [invCheck_iff]
    refine ⟨?_, ?_, ?_⟩
    · exact pairwise_insort st.sorted_ids msg_id hpw hnotmem
    · intro k hkm
      rcases (mem_insort st.sorted_ids msg_id k).mp hkm with hkx | hkin
      · subst hkx
        rw [hasKey_append_single]
        simp
      · rw [hasKey_append_single]
        simp [hkeys k hkin]
    · intro p hp
      rcases List.mem_append.mp hp with hpo | hpn
      · exact (mem_insort _ _ _).mpr (Or.inr (hmem p hpo))
      · have hpe : p = (msg_id, content) := by simpa using hpn
        rw [hpe]
        exact (mem_insort _ _ _).mpr (Or.inl rfl)

/-- Witness for C8: adding id 1 to a valid state holding only id 2
preserves the invariant. -/
theorem c8_storage_invariant_witness :
    invCheck MessageStorage.empty = true ∧
    invCheck (add_message (⟨[(2, "b")], [2]⟩ : MessageStorage) 1 "a").2 = true :=
  c8_storage_invariant ⟨[(2, "b")], [2]⟩ 1 "a" (by rfl)

/-- C3: `add_message` is idempotent — a present id makes it return false
and leave the whole state unchanged (whatever the new payload); an absent
id makes it return true and store the payload at that id exactly once —
and the `AppendMessage` RPC handler answers success in both cases, so
delivering `AppendMessage(id, p)` n + 1 times equals delivering it
once. -/
theorem c3_add_message_idempotent (st : MessageStorage) (msg_id : Int) (p : String) :
    (hasKey st.messages msg_id = true → add_message st msg_id p = (false, st)) ∧
    (hasKey st.messages msg_id = false →
      (add_message st msg_id p).1 = true ∧
      (add_message st msg_id p).2.messages = st.messages ++ [(msg_id, p)] ∧
      lookupMsg (add_message st msg_id p).2.messages msg_id = some p ∧
      (add_message st msg_id p).2.messages.countP (fun q => q.1 = msg_id) = 1) ∧
    (appendMessageRpc st msg_id p).1 = true ∧
    (∀ n : Nat, (deliver msg_id p)^[n + 1] st = deliver msg_id p st) := by
  refine ⟨?_, ?_, rfl, ?_⟩
  · intro hk
    unfold add_message
    rw [if_pos hk]
  · intro hk
    unfold add_message
    rw [if_neg (by simp [hk])]
    exact ⟨rfl, rfl, lookupMsg_append_new st.messages msg_id p hk,
      countP_append_key st.messages msg_id p hk⟩
  · intro n
    have hk2 : hasKey (deliver msg_id p st).messages msg_id = true := by
      by_cases hk : hasKey st.messages msg_id = true
      · have hst : deliver msg_id p st = st := by
          simp [deliver, appendMessageRpc, add_message, hk]
        rw [hst]
        exact hk
      · have hk' : hasKey st.messages msg_id = false := by simpa using hk
        have hst : (deliver msg_id p st).messages = st.messages ++ [(msg_id, p)] := by
          simp [deliver, appendMessageRpc, add_message, hk']
        rw [hst, hasKey_append_single]
        simp
    have hfix : deliver msg_id p (deliver msg_id p st) = deliver msg_id p st := by
      have hadd : add_message (deliver msg_id p st) msg_id p
          = (false, deliver msg_id p st) := by
        unfold add_message
        rw [if_pos hk2]
      show (appendMessageRpc (deliver msg_id p st) msg_id p).2 = deliver msg_id p st
      unfold appendMessageRpc
      rw [hadd]
    rw [Function.iterate_succ_apply]
    exact Function.iterate_fixed hfix n

/-- Witness for C3: duplicate delivery of id 1 (with a different payload)
is a no-op; a fresh id 2 is stored exactly once; triple delivery equals
single delivery. -/
theorem c3_add_message_idempotent_witness :
    add_message (⟨[(1, "b")], [1]⟩ : MessageStorage) 1 "z"
      = (false, (⟨[(1, "b")], [1]⟩ : MessageStorage)) ∧
    (add_message (⟨[(1, "b")], [1]⟩ : MessageStorage) 2 "c").1 = true ∧
    lookupMsg (add_message (⟨[(1, "b")], [1]⟩ : MessageStorage) 2 "c").2.messages 2
      = some "c" ∧
    (deliver 1 "z")^[3] (⟨[(1, "b")], [1]⟩ : MessageStorage)
      = deliver 1 "z" (⟨[(1, "b")], [1]⟩ : MessageStorage) := by
  have h := c3_add_message_idempotent ⟨[(1, "b")], [1]⟩ 1 "z"
  have h2 := c3_add_message_idempotent ⟨[(1, "b")], [1]⟩ 2 "c"
  exact ⟨h.1 (by rfl), (h2.2.1 (by rfl)).1, (h2.2.1 (by rfl)).2.2.1, h.2.2.2 2⟩

/-- The contiguous-run behaviour of the `get_all` loop: over a strictly
ascending id list whose elements are all ≥ the expected id `e`, the loop
yields the payloads of `e, e+1, …, e+m−1`, where `m` counts how far the
ids are consecutively present starting at `e`. -/
theorem get_all_loop_spec (msgs : List (Int × String)) (ids : List Int) (e : Int) (m : Nat)
    (hs : ids.Pairwise (fun a b => a < b))
    (hge : ∀ x ∈ ids, e ≤ x)
    (h1 : ∀ i : Nat, i < m → e + (i : Int) ∈ ids)
    (h2 : e + (m : Int) ∉ ids) :
    get_all_loop msgs ids e
      = (List.range m).map (fun (k : Nat) => (lookupMsg msgs (e + (k : Int))).getD "") := by
  induction ids generalizing e m with
  | nil =>
    cases m with
    | zero => simp [get_all_loop]
    | succ m' => exact absurd (h1 0 (by omega)) (by simp)
  | cons y ys ih =>
    rw [List.pairwise_cons] at hs
    obtain ⟨hy, hys⟩ := hs
    by_cases he : y = e
    · subst he
      cases m with
      | zero =>
        exfalso
        apply h2
        simp
      | succ m' =>
        have hloop : get_all_loop msgs (y :: ys) y
            = (lookupMsg msgs y).getD "" :: get_all_loop msgs ys (y + 1) := by
          simp [get_all_loop]
        rw [hloop]
        have hys' : ∀ x ∈ ys, y + 1 ≤ x := by
          intro x hx
          have := hy x hx
          omega
        have h1' : ∀ i : Nat, i < m' → (y + 1) + (i : Int) ∈ ys := by
          intro i hi
          have hmem := h1 (i + 1) (by omega)
          have hcast : y + ((i + 1 : Nat) : Int) = (y + 1) + (i : Int) := by
            push_cast
            ring
          rcases List.mem_cons.mp hmem with hh | ht
          · exfalso
            rw [hcast] at hh
            omega
          · exact hcast ▸ ht
        have h2' : (y + 1) + (m' : Int) ∉ ys := by
          intro hmem
          apply h2
          have hcast : y + ((m' + 1 : Nat) : Int) = (y + 1) + (m' : Int) := by
            push_cast
            ring
          rw [hcast]
          exact List.mem_cons_of_mem _ hmem
        rw [ih (y + 1) m' hys hys' h1' h2']
        rw [List.range_succ_eq_map, List.map_cons, List.map_map]
        refine congrArg₂ _ ?_ ?_
        · simp
        · refine List.map_congr_left ?_
          intro a _
          show (lookupMsg msgs ((y + 1) + (a : Int))).getD ""
            = (lookupMsg msgs (y + ((a + 1 : Nat) : Int))).getD ""
          have hcast : y + ((a + 1 : Nat) : Int) = (y + 1) + (a : Int) := by
            push_cast
            ring
          rw [hcast]
    · have hye : e < y :=
        lt_of_le_of_ne (hge y (List.mem_cons_self y ys)) (fun h => he h.symm)
      have hm : m = 0 := by
        by_contra hm0
        have h0 := h1 0 (by omega)
        have h0' : e ∈ y :: ys := by simpa using h0
        rcases List.mem_cons.mp h0' with hh | ht
        · exact he hh.symm
        · have := hy e ht
          omega
      subst hm
      have hloop : get_all_loop msgs (y :: ys) e = [] := by
        simp [get_all_loop, he]
      rw [hloop]
      simp

/-- C2 (amended): on a state satisfying invariant I4 whose stored ids
are all ≥ 1, `get_all` returns exactly the payloads of ids 1..m in
ascending order, m the largest integer with {1..m} all stored (`h1`,
`h2` characterize that m); empty storage and a smallest id > 1 both give
the empty sequence via m = 0.  The claim over all states fails when a
non-positive id is stored; see `c2_get_all_cex`. -/
theorem c2_get_all_contiguous (st : MessageStorage) (m : Nat)
    (hinv : invCheck st = true)
    (hpos : ∀ k ∈ st.sorted_ids, (1 : Int) ≤ k)
    (h1 : ∀ i : Nat, i < m → (1 + (i : Int)) ∈ st.sorted_ids)
    (h2 : (1 + (m : Int)) ∉ st.sorted_ids) :
    get_all st
      = (List.range m).map (fun (k : Nat) => (lookupMsg st.messages (1 + (k : Int))).getD "") ∧
    (∀ i : Nat, i < m → hasKey st.messages (1 + (i : Int)) = true) := by
  obtain ⟨hpw, hkeys, _⟩ := (invCheck_iff st).mp hinv
  constructor
  · have hspec := get_all_loop_spec st.messages st.sorted_ids 1 m hpw hpos h1 h2
    unfold get_all
    cases hl : st.sorted_ids with
    | nil =>
      have hm : m = 0 := by
        by_contra hm0
        have h0 := h1 0 (by omega)
        rw [hl] at h0
        simp at h0
      subst hm
      simp
    | cons y ys =>
      rw [hl] at hspec
      simpa using hspec
  · intro i hi
    exact hkeys _ (h1 i hi)

/-- Witness for C2 at a concrete state: ids {1, 2, 4} with the invariant
holding; m = 2, and get_all returns the payloads of ids 1 and 2. -/
theorem c2_get_all_contiguous_witness :
    get_all (⟨[(1, "a"), (2, "b"), (4, "d")], [1, 2, 4]⟩ : MessageStorage)
      = (List.range 2).map
          (fun (k : Nat) => (lookupMsg [(1, "a"), (2, "b"), (4, "d")] (1 + (k : Int))).getD "") ∧
    get_all (⟨[(1, "a"), (2, "b"), (4, "d")], [1, 2, 4]⟩ : MessageStorage) = ["a", "b"] := by
  have h := c2_get_all_contiguous ⟨[(1, "a"), (2, "b"), (4, "d")], [1, 2, 4]⟩ 2
    (by rfl) (by decide) (by decide) (by decide)
  exact ⟨h.1, by rfl⟩

/-- C2 as stated is false: the state {0 ↦ "a", 1 ↦ "b"} — reachable by
`add_message 1 "b"` then `add_message 0 "a"` on empty storage, and
satisfying invariant I4 — stores id 1 and not id 2, so the largest m with
{1..m} stored is 1 and the claim predicts the output ["b"], but `get_all`
returns [] because the loop's first iteration sees id 0 ≠ 1 and stops. -/
theorem c2_get_all_cex :
    (add_message (add_message MessageStorage.empty 1 "b").2 0 "a").2
      = (⟨[(1, "b"), (0, "a")], [0, 1]⟩ : MessageStorage) ∧
    invCheck (⟨[(1, "b"), (0, "a")], [0, 1]⟩ : MessageStorage) = true ∧
    (1 : Int) ∈ ([0, 1] : List Int) ∧
    (2 : Int) ∉ ([0, 1] : List Int) ∧
    (List.range 1).map (fun (k : Nat) => (lookupMsg [(1, "b"), (0, "a")] (1 + (k : Int))).getD "")
      = ["b"] ∧
    get_all (⟨[(1, "b"), (0, "a")], [0, 1]⟩ : MessageStorage) = [] := by
  exact ⟨rfl, rfl, by decide, by decide, rfl, rfl⟩

end DistLog
